import Mathlib

/-!
Shallow embedding of the `ggen` ontology compiler
(`src/tools/ggen-cli/src/main.rs`) and proofs about its
extraction-and-projection pipeline: IRI name derivation, class discovery,
property resolution, XSD type mapping, the ontology loader and the
template-render orchestrator.

Rust strings are modelled as `List Char` (via `String.data`); the graph
store is a list of triples over an RDF `Term` type; the SPARQL queries
issued by the code (`SELECT DISTINCT ... ORDER BY`) are modelled by
filtering, deduplicating and sorting the triple list.
-/

namespace Ggen

/-- The separator characters used by name derivation:
Rust `iri.split(&['#', '/'][..])`. -/
def isSepChar (c : Char) : Bool := c = '#' || c = '/'

/-- Rust `str::split` semantics on a character predicate: splitting the
empty string yields one empty segment, and each separator occurrence
starts a new segment (so a trailing separator yields a trailing empty
segment). -/
def splitOnPred (p : Char → Bool) : List Char → List (List Char)
  | [] => [[]]
  | c :: cs =>
    if p c then [] :: splitOnPred p cs
    else
      match splitOnPred p cs with
      | [] => [[c]]
      | s :: rest => (c :: s) :: rest

/-- `iri.split(&['#', '/'][..])` from `extract_classes`, `extract_properties`
and `map_xsd_type`. -/
def splitOnSeps (l : List Char) : List (List Char) :=
  splitOnPred isSepChar l

/-- Rust `.split(...).last().unwrap_or(dflt)`: the last segment produced by
the split, or `dflt` if the iterator is empty (which, as proved below,
never happens). -/
def lastSegD (dflt : List Char) (l : List Char) : List Char :=
  ((splitOnSeps l).getLast?).getD dflt

/-- Rust `str::trim_matches(c)`: remove all leading and trailing
occurrences of the character `c`. -/
def trimMatches (c : Char) (l : List Char) : List Char :=
  ((l.dropWhile (· = c)).reverse.dropWhile (· = c)).reverse

/-- Rust `str::contains(pat)` for a string pattern: `pat` occurs as a
contiguous substring of `hay`. -/
def containsSub : List Char → List Char → Bool
  | [], pat => pat.isEmpty
  | c :: t, pat => pat.isPrefixOf (c :: t) || containsSub t pat

theorem getLast?_cons_ne {α : Type} (x : α) (l : List α) (h : l ≠ []) :
    (x :: l).getLast? = l.getLast? := by
  cases l with
  | nil => exact absurd rfl h
  | cons b t => exact List.getLast?_cons_cons

theorem splitOnPred_ne_nil (p : Char → Bool) (l : List Char) :
    splitOnPred p l ≠ [] := by
  cases l with
  | nil => simp [splitOnPred]
  | cons c cs =>
    simp only [splitOnPred]
    split
    · simp
    · split <;> simp

theorem splitOnSeps_ne_nil (l : List Char) : splitOnSeps l ≠ [] :=
  splitOnPred_ne_nil isSepChar l

/-- A list with no separator splits into the single segment `[l]`. -/
theorem splitOnSeps_eq_single (l : List Char)
    (h : ∀ c ∈ l, isSepChar c = false) : splitOnSeps l = [l] := by
  induction l with
  | nil => rfl
  | cons c cs ih =>
    have hc : isSepChar c = false := h c (by simp)
    have hcs : splitOnSeps cs = [cs] := ih (fun x hx => h x (by simp [hx]))
    simp only [splitOnSeps, splitOnPred] at hcs ⊢
    rw [hc]
    simp only [Bool.false_eq_true, if_false, hcs]

/-- A list containing a separator splits into at least two segments. -/
theorem two_le_length_splitOnSeps (l : List Char)
    (h : ∃ c ∈ l, isSepChar c = true) : 2 ≤ (splitOnSeps l).length := by
  induction l with
  | nil => simp at h
  | cons c cs ih =>
    simp only [splitOnSeps, splitOnPred]
    by_cases hc : isSepChar c = true
    · rw [if_pos hc]
      have := splitOnPred_ne_nil isSepChar cs
      have : 1 ≤ (splitOnPred isSepChar cs).length :=
        Nat.one_le_iff_ne_zero.2 (by simpa [List.length_eq_zero] using this)
      simpa using Nat.succ_le_succ this
    · rw [if_neg hc]
      have hmem : ∃ x ∈ cs, isSepChar x = true := by
        rcases h with ⟨x, hx, hsep⟩
        rcases List.mem_cons.1 hx with rfl | hx'
        · exact absurd hsep hc
        · exact ⟨x, hx', hsep⟩
      have h2 := ih hmem
      rcases hrec : splitOnPred isSepChar cs with _ | ⟨s, rest⟩
      · exact absurd hrec (splitOnPred_ne_nil isSepChar cs)
      · simp only [splitOnSeps, hrec] at h2 ⊢
        simpa using h2

/-- Unfolding equation for `splitOnSeps` on a cons cell. -/
theorem splitOnSeps_cons (c : Char) (cs : List Char) :
    splitOnSeps (c :: cs) =
      if isSepChar c = true then [] :: splitOnSeps cs
      else
        match splitOnSeps cs with
        | [] => [[c]]
        | s :: rest => (c :: s) :: rest := rfl

/-- The last segment of `a ++ sep :: b` is the last segment of `b`. -/
theorem getLast?_splitOnSeps_append (a b : List Char) (sep : Char)
    (hsep : isSepChar sep = true) :
    (splitOnSeps (a ++ sep :: b)).getLast? = (splitOnSeps b).getLast? := by
  induction a with
  | nil =>
    show (splitOnSeps (sep :: b)).getLast? = (splitOnSeps b).getLast?
    rw [splitOnSeps_cons, if_pos hsep]
    exact getLast?_cons_ne _ _ (splitOnSeps_ne_nil b)
  | cons c a' ih =>
    show (splitOnSeps (c :: (a' ++ sep :: b))).getLast? =
      (splitOnSeps b).getLast?
    rw [splitOnSeps_cons]
    by_cases hc : isSepChar c = true
    · rw [if_pos hc, getLast?_cons_ne _ _ (splitOnSeps_ne_nil _)]
      exact ih
    · rw [if_neg hc]
      have h2 := two_le_length_splitOnSeps (a' ++ sep :: b)
        ⟨sep, by simp, hsep⟩
      rcases hrec : splitOnSeps (a' ++ sep :: b) with _ | ⟨s, rest⟩
      · exact absurd hrec (splitOnSeps_ne_nil (a' ++ sep :: b))
      · show ((c :: s) :: rest).getLast? = (splitOnSeps b).getLast?
        rw [hrec] at h2 ih
        have hrest : rest ≠ [] := by
          intro hcontra
          rw [hcontra] at h2
          simp at h2
        rw [getLast?_cons_ne _ _ hrest, ← getLast?_cons_ne s rest hrest]
        exact ih

/-- If `l` is non-empty and does not end in a separator, the last segment
of the split is non-empty. -/
theorem lastSegD_ne_nil (d l : List Char) (hne : l ≠ [])
    (hlast : ∀ c, l.getLast? = some c → isSepChar c = false) :
    lastSegD d l ≠ [] := by
  induction l with
  | nil => exact absurd rfl hne
  | cons c cs ih =>
    cases cs with
    | nil =>
      have hc : isSepChar c = false := hlast c rfl
      simp [lastSegD, splitOnSeps, splitOnPred, hc]
    | cons c' cs' =>
      have ihcs : lastSegD d (c' :: cs') ≠ [] := by
        apply ih (by simp)
        intro x hx
        apply hlast
        rwa [getLast?_cons_ne _ _ (by simp)]
      simp only [lastSegD] at ihcs ⊢
      rw [splitOnSeps_cons]
      by_cases hc : isSepChar c = true
      · rw [if_pos hc, getLast?_cons_ne _ _ (splitOnSeps_ne_nil _)]
        exact ihcs
      · rw [if_neg hc]
        rcases hrec : splitOnSeps (c' :: cs') with _ | ⟨s, rest⟩
        · exact absurd hrec (splitOnSeps_ne_nil (c' :: cs'))
        · show (((c :: s) :: rest).getLast?).getD d ≠ []
          rw [hrec] at ihcs
          cases rest with
          | nil => simp
          | cons r rest' =>
            rw [getLast?_cons_ne _ _ (List.cons_ne_nil r rest')]
            rwa [getLast?_cons_ne _ _ (List.cons_ne_nil r rest')] at ihcs

/-- `containsSub` decides substring occurrence (`List.IsInfix`). -/
theorem containsSub_iff (hay pat : List Char) :
    containsSub hay pat = true ↔ pat <:+: hay := by
  induction hay with
  | nil =>
    simp only [containsSub, List.isEmpty_iff]
    constructor
    · rintro rfl; exact List.infix_refl []
    · intro h
      simpa using List.eq_nil_of_infix_nil h
  | cons c t ih =>
    simp only [containsSub, Bool.or_eq_true, ih,
      List.isPrefixOf_iff_prefix]
    exact Iff.symm List.infix_cons_iff

/-! ## RDF data model and the graph store

The oxigraph `Store` is modelled as a list of triples over RDF terms.
`Term.toDisplay` models Rust `Term::to_string()` (oxigraph serializes a
named node as `<iri>`, a blank node as `_:id` and a literal quoted). -/

/-- An RDF term: named node (IRI), blank node, or literal. -/
inductive Term where
  | named (iri : String)
  | blank (id : String)
  | lit (value : String)
deriving DecidableEq

/-- One RDF triple of the loaded store. -/
structure Triple where
  s : Term
  p : Term
  o : Term
deriving DecidableEq

/-- The in-memory graph: the list of loaded triples. -/
abbrev Graph := List Triple

/-- `Term::to_string()` of oxigraph, as used by `extract_properties`
(`prop_term.to_string()`, `v.to_string()`). -/
def Term.toDisplay : Term → List Char
  | .named iri => '<' :: iri.data ++ ['>']
  | .blank id => '_' :: ':' :: id.data
  | .lit value => '"' :: value.data ++ ['"']

/-- IRIs of the vocabulary terms appearing in the two SPARQL queries of
`extract_classes` and `extract_properties`. -/
def rdfTypeIri : String := "http://www.w3.org/1999/02/22-rdf-syntax-ns#type"

def rdfsClassIri : String := "http://www.w3.org/2000/01/rdf-schema#Class"

def owlClassIri : String := "http://www.w3.org/2002/07/owl#Class"

def rdfsDomainIri : String := "http://www.w3.org/2000/01/rdf-schema#domain"

def rdfsRangeIri : String := "http://www.w3.org/2000/01/rdf-schema#range"

def rdfsCommentIri : String := "http://www.w3.org/2000/01/rdf-schema#comment"

/-- The three reserved vocabulary namespaces (RDF, RDFS, OWL). -/
def rdfNs : String := "http://www.w3.org/1999/02/22-rdf-syntax-ns#"

def rdfsNs : String := "http://www.w3.org/2000/01/rdf-schema#"

def owlNs : String := "http://www.w3.org/2002/07/owl#"

/-- The substring filter of `extract_classes`:
`class_iri.contains("www.w3.org")`. -/
def w3Marker : String := "www.w3.org"

/-- Sort key used to model SPARQL `ORDER BY` over the solution terms
(oxigraph compares named nodes by IRI; the key is the term's identifier
string). -/
def termKey : Term → String
  | .named iri => iri
  | .blank id => id
  | .lit value => value

/-- Ordering of query solutions (`ORDER BY ?class`, `ORDER BY ?property`):
by the term's identifier string. -/
def termLe (a b : Term) : Prop := termKey a ≤ termKey b

instance : DecidableRel termLe := fun a b =>
  inferInstanceAs (Decidable (termKey a ≤ termKey b))

instance : IsTotal Term termLe := ⟨fun a b => le_total (termKey a) (termKey b)⟩

instance : IsTrans Term termLe := ⟨fun _ _ _ => le_trans⟩

/-- The subjects matched by the class query pattern
`?class a ?classType . VALUES ?classType { rdfs:Class owl:Class }`. -/
def classCandidates (g : Graph) : List Term :=
  g.filterMap fun t =>
    if t.p = Term.named rdfTypeIri ∧
        (t.o = Term.named rdfsClassIri ∨ t.o = Term.named owlClassIri)
    then some t.s else none

/-- The solution sequence of the class query: `SELECT DISTINCT ?class ...
ORDER BY ?class` — deduplicated and sorted by identifier. -/
def classTerms (g : Graph) : List Term :=
  List.insertionSort termLe (classCandidates g).dedup

/-- The subjects matched by the property query pattern
`?property rdfs:domain <classIri>`. -/
def propCandidates (g : Graph) (classIri : String) : List Term :=
  g.filterMap fun t =>
    if t.p = Term.named rdfsDomainIri ∧ t.o = Term.named classIri
    then some t.s else none

/-- The solution sequence of the property query: `SELECT DISTINCT
?property ... ORDER BY ?property`. -/
def propTerms (g : Graph) (classIri : String) : List Term :=
  List.insertionSort termLe (propCandidates g classIri).dedup

/-- `OPTIONAL { ?s rdfs:comment ?comment }` followed by
`solution.get("comment").map(|v| v.to_string().trim_matches('"'))
.unwrap_or_default()`: first comment literal found, serialized and
stripped of surrounding quotes, or the empty string. -/
def commentOf (g : Graph) (s : Term) : String :=
  match g.find? fun t => t.s == s && t.p == Term.named rdfsCommentIri with
  | some t => String.mk (trimMatches '"' (Term.toDisplay t.o))
  | none => ""

/-- `OPTIONAL { ?property rdfs:range ?range }` followed by
`solution.get("range").map(|v| v.to_string())
.unwrap_or_else(|| "xsd:string".to_string())`. -/
def rangeOf (g : Graph) (p : Term) : String :=
  match g.find? fun t => t.s == p && t.p == Term.named rdfsRangeIri with
  | some t => String.mk (Term.toDisplay t.o)
  | none => "xsd:string"

/-- `map_xsd_type` from the source: substring classification of a range
string into `(rust_type, python_type, typescript_type)`; the final branch
reuses the suffix-derivation rule with `.unwrap_or("String")` and
`.trim_matches('>')`. -/
def map_xsd_type (x : String) : String × String × String :=
  if containsSub x.data "string".data then ("String", "str", "string")
  else if containsSub x.data "integer".data || containsSub x.data "int".data
    then ("i64", "int", "number")
  else if containsSub x.data "boolean".data then ("bool", "bool", "boolean")
  else if containsSub x.data "dateTime".data
    then ("DateTime<Utc>", "datetime", "Date")
  else if containsSub x.data "decimal".data || containsSub x.data "float".data
    then ("f64", "float", "number")
  else
    let t := String.mk (trimMatches '>' (lastSegD "String".data x.data))
    (t, t, t)

/-- A generated property (`struct Property` of the source). -/
structure Property where
  name : String
  comment : String
  rust_type : String
  python_type : String
  typescript_type : String
  optional : Bool
deriving DecidableEq

/-- Property name derivation of `extract_properties`: the property term is
serialized (`prop_term.to_string()`), split on `#`/`/`, the last segment
taken with fallback `"unknown"`, and `>` delimiters trimmed. -/
def propNameOf (p : Term) : String :=
  String.mk (trimMatches '>' (lastSegD "unknown".data (Term.toDisplay p)))

/-- The body of the solution loop of `extract_properties`: build one
`Property` from a solution term. -/
def mkProperty (g : Graph) (p : Term) : Property :=
  let range := rangeOf g p
  let types := map_xsd_type range
  { name := propNameOf p
    comment := commentOf g p
    rust_type := types.1
    python_type := types.2.1
    typescript_type := types.2.2
    optional := false }

/-- `extract_properties` from the source: one `Property` per solution of
the domain query, in query order. -/
def extract_properties (g : Graph) (classIri : String) : List Property :=
  (propTerms g classIri).map (mkProperty g)

/-- A generated class (`struct OntologyClass` of the source). -/
structure OntologyClass where
  name : String
  comment : String
  properties : List Property
deriving DecidableEq

/-- Class name derivation of `extract_classes`:
`class_iri.split(&['#', '/'][..]).last().unwrap_or("Unknown")`. -/
def classNameOf (iri : String) : String :=
  String.mk (lastSegD "Unknown".data iri.data)

/-- The class-IRI sequence that `extract_classes` iterates over: solutions
of the class query restricted to named nodes (`Term::NamedNode(node) =>
node.as_str(), _ => continue`) and filtered by
`class_iri.contains("www.w3.org") => continue`. -/
def discoveredClassIris (g : Graph) : List String :=
  (classTerms g).filterMap fun t =>
    match t with
    | .named iri =>
      if containsSub iri.data w3Marker.data then none else some iri
    | _ => none

/-- The loop body of `extract_classes`: build one `OntologyClass` from a
discovered class IRI. -/
def mkClass (g : Graph) (iri : String) : OntologyClass :=
  { name := classNameOf iri
    comment := commentOf g (Term.named iri)
    properties := extract_properties g iri }

/-- `extract_classes` from the source. -/
def extract_classes (g : Graph) : List OntologyClass :=
  (discoveredClassIris g).map (mkClass g)

/-! ## Ontology loader (`load_ontology`)

The directory walk (`WalkDir::new(dir) ... .filter_map(|e| e.ok())
.filter(|e| ext == "ttl")`) is modelled as a list of walk results: either
a traversal error or a file entry carrying its extension and the outcome
of reading and parsing it.  `fs::read_to_string` failure produces the
contextualized error `"Failed to read {path}"`; a Turtle parse failure
propagates the parser's own message through `?` with no added context. -/

/-- Outcome of parsing one ontology file's content as Turtle. -/
inductive ParseResult where
  | perr (msg : String)
  | pok (triples : List Triple)
deriving DecidableEq

/-- One result of the recursive directory walk: a traversal error
(dropped by `filter_map(|e| e.ok())`) or a file with its extension and
read result (`none` models an unreadable file). -/
inductive DirEntry where
  | walkErr
  | file (path : String) (ext : String) (read : Option ParseResult)
deriving DecidableEq

/-- The `.ttl` selection of the walk:
walk errors are silently discarded, files are kept iff their extension is
`"ttl"`. -/
def selectTtl (entries : List DirEntry) : List (String × Option ParseResult) :=
  entries.filterMap fun e =>
    match e with
    | .walkErr => none
    | .file path ext read => if ext = "ttl" then some (path, read) else none

/-- The load loop of `load_ontology`: read each selected file and merge
its triples into the store, failing fast on the first read or parse
error. -/
def loadFiles : List (String × Option ParseResult) → Except String Graph
  | [] => Except.ok []
  | (path, none) :: _ => Except.error ("Failed to read " ++ path)
  | (_, some (.perr msg)) :: _ => Except.error msg
  | (_, some (.pok ts)) :: rest =>
    match loadFiles rest with
    | Except.ok g => Except.ok (ts ++ g)
    | Except.error e => Except.error e

/-- `load_ontology` from the source: walk the directory, keep readable
entries with the `.ttl` extension, and load them in order. -/
def load_ontology (entries : List DirEntry) : Except String Graph :=
  loadFiles (selectTtl entries)

/-! ## Render orchestrator (`render_templates`)

The Tera engine is external; its per-template rendered text is an input
to the model.  The orchestrator's observable behaviour is a trace of
effects: directory creation, file writes, and console prints. -/

/-- One observable effect of `render_templates`. -/
inductive Effect where
  | createDir (path : String)
  | writeFile (path : String) (content : String)
  | print (line : String)
deriving DecidableEq

/-- Whether an effect touches the filesystem. -/
def Effect.isFsWrite : Effect → Bool
  | .createDir _ => true
  | .writeFile _ _ => true
  | .print _ => false

/-- Rust `str::lines()`: split on `'\n'`, with an optional final line
ending (no trailing empty line for a trailing newline) and a trailing
`'\r'` stripped from each line. -/
def rustLines (s : List Char) : List (List Char) :=
  if s = [] then []
  else
    let segs := splitOnPred (· = '\n') s
    let segs := if s.getLast? = some '\n' then segs.dropLast else segs
    segs.map fun seg =>
      if seg.getLast? = some '\r' then seg.dropLast else seg

/-- The dry-run branch of the per-template loop:
`println!("\n--- {} ---", path)`, then the first 20 lines joined with
`'\n'` in a single `println!`, then, if the output has more than 20
lines, the remaining-line count. -/
def dryRunPreview (outputPath : String) (rendered : String) : List Effect :=
  let ls := rustLines rendered.data
  [Effect.print ("\n--- " ++ outputPath ++ " ---"),
   Effect.print (String.mk (List.intercalate ['\n'] (ls.take 20)))]
  ++ (if 20 < ls.length then
        [Effect.print ("... (" ++ toString (ls.length - 20) ++ " more lines)")]
      else [])

/-- `render_templates` from the source, as its effect trace.  `outputs`
is the list of `(output_file_name, rendered_text)` pairs produced by the
external template engine, in template order; `outputDir` is the target
directory.  Non-dry runs create the output directory up front and write
each rendered file; dry runs only print previews. -/
def render_templates (outputs : List (String × String)) (outputDir : String)
    (dryRun : Bool) : List Effect :=
  (if dryRun then [] else [Effect.createDir outputDir])
  ++ outputs.flatMap fun nm =>
      if dryRun then dryRunPreview (outputDir ++ "/" ++ nm.1) nm.2
      else [Effect.writeFile (outputDir ++ "/" ++ nm.1) nm.2]

/-! ## Name-derivation lemmas -/

theorem dropWhile_eq_self_of_none {α : Type} (p : α → Bool) (l : List α)
    (h : ∀ c ∈ l, p c = false) : l.dropWhile p = l := by
  cases l with
  | nil => rfl
  | cons a t =>
    rw [List.dropWhile_cons, if_neg]
    simp [h a (by simp)]

/-- Trimming `'>'` from a `'>'`-free segment with the closing delimiter
appended recovers the segment. -/
theorem trimMatches_gt_append (bar : List Char) (hne : bar ≠ [])
    (h : ∀ c ∈ bar, c ≠ '>') :
    trimMatches '>' (bar ++ ['>']) = bar := by
  have hall : ∀ c ∈ bar ++ ['>'], c = '>' → c ∈ bar → False := by
    intro c _ hc hmem
    exact h c hmem hc
  have step1 : (bar ++ ['>']).dropWhile (· = '>') = bar ++ ['>'] := by
    cases bar with
    | nil => exact absurd rfl hne
    | cons b bs =>
      rw [List.cons_append, List.dropWhile_cons, if_neg]
      simp only [decide_eq_true_eq]
      exact h b (by simp)
  have step2 : (bar ++ ['>']).reverse = '>' :: bar.reverse := by
    simp
  rw [trimMatches, step1, step2, List.dropWhile_cons, if_pos (by simp),
    dropWhile_eq_self_of_none]
  · simp
  · intro c hc
    simp only [decide_eq_false_iff_not]
    exact h c (List.mem_reverse.1 hc)

/-- The last segment of a separator-free list is the list itself. -/
theorem lastSegD_no_sep (d l : List Char)
    (h : ∀ c ∈ l, isSepChar c = false) : lastSegD d l = l := by
  rw [lastSegD, splitOnSeps_eq_single l h]
  rfl

/-- The last segment of `a ++ sep :: b` for separator-free `b` is `b`. -/
theorem lastSegD_append_sep (d a b : List Char) (sep : Char)
    (hsep : isSepChar sep = true) (hb : ∀ c ∈ b, isSepChar c = false) :
    lastSegD d (a ++ sep :: b) = b := by
  rw [lastSegD, getLast?_splitOnSeps_append a b sep hsep,
    splitOnSeps_eq_single b hb]
  rfl

theorem isSepChar_eq_false_of_ne (c : Char) (h1 : c ≠ '#') (h2 : c ≠ '/') :
    isSepChar c = false := by
  simp [isSepChar, h1, h2]

/-- **C1.** For every class identifier ending in `#Foo` or `/Foo` (`Foo`
non-empty and separator-free), class discovery derives the short name
`Foo`; and the same suffix-extraction rule of property resolution applied
to a property identifier ending in `#bar` or `/bar` yields `bar` (the
`'>'`-freeness hypothesis holds of every IRI, `'>'` being forbidden in
IRIs). -/
theorem name_derivation_suffix (pre preP foo bar : List Char)
    (_hfoo : foo ≠ []) (hfooSep : ∀ c ∈ foo, c ≠ '#' ∧ c ≠ '/')
    (hbar : bar ≠ []) (hbarSep : ∀ c ∈ bar, c ≠ '#' ∧ c ≠ '/')
    (hbarGt : ∀ c ∈ bar, c ≠ '>') :
    classNameOf (String.mk (pre ++ '#' :: foo)) = String.mk foo ∧
    classNameOf (String.mk (pre ++ '/' :: foo)) = String.mk foo ∧
    propNameOf (Term.named (String.mk (preP ++ '#' :: bar))) = String.mk bar ∧
    propNameOf (Term.named (String.mk (preP ++ '/' :: bar))) = String.mk bar := by
  have hfoo' : ∀ c ∈ foo, isSepChar c = false := fun c hc =>
    isSepChar_eq_false_of_ne c (hfooSep c hc).1 (hfooSep c hc).2
  have hbarGtFree : ∀ c ∈ bar ++ ['>'], isSepChar c = false := by
    intro c hc
    rcases List.mem_append.1 hc with hmem | hmem
    · exact isSepChar_eq_false_of_ne c (hbarSep c hmem).1 (hbarSep c hmem).2
    · simp only [List.mem_singleton] at hmem
      subst hmem
      rfl
  have hprop : ∀ sep : Char, isSepChar sep = true →
      propNameOf (Term.named (String.mk (preP ++ sep :: bar))) =
        String.mk bar := by
    intro sep hsep
    have hdisp : Term.toDisplay (Term.named (String.mk (preP ++ sep :: bar)))
        = ('<' :: preP) ++ sep :: (bar ++ ['>']) := by
      simp [Term.toDisplay]
    rw [propNameOf, hdisp,
      lastSegD_append_sep _ _ _ _ hsep hbarGtFree,
      trimMatches_gt_append bar hbar hbarGt]
  refine ⟨?_, ?_, hprop '#' (by decide), hprop '/' (by decide)⟩
  · rw [classNameOf]
    show String.mk (lastSegD "Unknown".data (pre ++ '#' :: foo)) = _
    rw [lastSegD_append_sep _ _ _ '#' (by decide) hfoo']
  · rw [classNameOf]
    show String.mk (lastSegD "Unknown".data (pre ++ '/' :: foo)) = _
    rw [lastSegD_append_sep _ _ _ '/' (by decide) hfoo']

/-- Witness for C1 at a concrete class and property identifier. -/
theorem name_derivation_suffix_witness :
    classNameOf (String.mk ("http://example.org/ns".data ++ '#' ::
      "Person".data)) = String.mk "Person".data ∧
    classNameOf (String.mk ("http://example.org/ns".data ++ '/' ::
      "Person".data)) = String.mk "Person".data ∧
    propNameOf (Term.named (String.mk ("http://example.org/ns".data ++ '#' ::
      "name".data))) = String.mk "name".data ∧
    propNameOf (Term.named (String.mk ("http://example.org/ns".data ++ '/' ::
      "name".data))) = String.mk "name".data :=
  name_derivation_suffix "http://example.org/ns".data
    "http://example.org/ns".data "Person".data "name".data
    (by decide) (by decide) (by decide) (by decide) (by decide)

/-- **C2 (counterexample).** A class identifier with neither separator does
not receive the sentinel `"Unknown"`: the discovered class for the
separator-free IRI `urn:example:thing` is named by the whole identifier. -/
theorem no_separator_counterexample :
    (extract_classes [⟨Term.named "urn:example:thing",
        Term.named rdfTypeIri, Term.named rdfsClassIri⟩]).map
      OntologyClass.name = ["urn:example:thing"] ∧
    ("urn:example:thing" : String) ≠ "Unknown" := by
  constructor
  · rfl
  · decide

/-- **C2 (amended).** For a class identifier containing neither `#` nor
`/`, name derivation yields the whole identifier (splitting a
separator-free string produces the single segment equal to the string, so
the `"Unknown"` fallback is never taken). -/
theorem class_name_no_separator (iri : String)
    (h : ∀ c ∈ iri.data, c ≠ '#' ∧ c ≠ '/') : classNameOf iri = iri := by
  rw [classNameOf, lastSegD_no_sep]
  intro c hc
  exact isSepChar_eq_false_of_ne c (h c hc).1 (h c hc).2

/-- Witness for the amended C2 at the separator-free IRI. -/
theorem class_name_no_separator_witness :
    classNameOf "urn:example:thing" = "urn:example:thing" :=
  class_name_no_separator "urn:example:thing" (by decide)

/-- **C3 (counterexample).** A class IRI ending in `/` produces a
`ClassDescriptor` whose `name` is the empty string: the invariant
"`name` is never empty" fails. -/
theorem empty_name_counterexample :
    (extract_classes [⟨Term.named "http://example.org/ns/",
        Term.named rdfTypeIri, Term.named owlClassIri⟩]).map
      OntologyClass.name = [""] := by
  rfl

/-- **C3 (amended).** The `name` of a produced `ClassDescriptor` is
non-empty provided the source class IRI is non-empty and does not end in
`#` or `/`; an IRI ending in a separator yields an empty name (and the
`"Unknown"` sentinel is never the fallback actually taken). -/
theorem mkClass_name_nonempty (g : Graph) (iri : String)
    (hne : iri ≠ "")
    (hlast : ∀ c, iri.data.getLast? = some c → c ≠ '#' ∧ c ≠ '/') :
    (mkClass g iri).name ≠ "" := by
  have hdata : iri.data ≠ [] := by
    intro hd
    apply hne
    have : iri = String.mk iri.data := rfl
    rw [this, hd]
  have hseg : lastSegD "Unknown".data iri.data ≠ [] := by
    apply lastSegD_ne_nil _ _ hdata
    intro c hc
    exact isSepChar_eq_false_of_ne c (hlast c hc).1 (hlast c hc).2
  show classNameOf iri ≠ ""
  rw [classNameOf]
  intro hcontra
  exact hseg (congrArg String.data hcontra)

/-- Witness for the amended C3 at a concrete graph and IRI. -/
theorem mkClass_name_nonempty_witness :
    (mkClass [] "http://example.org/ns#Person").name ≠ "" :=
  mkClass_name_nonempty [] "http://example.org/ns#Person"
    (by decide) (by decide)

/-- A solution term mapped by the discovery filter to an IRI is the named
node of that IRI (so its sort key is the IRI). -/
theorem termKey_of_discovery_filter (t : Term) (iri : String)
    (h : (match t with
          | Term.named i =>
            if containsSub i.data w3Marker.data then none else some i
          | _ => none) = some iri) :
    termKey t = iri := by
  cases t with
  | named i =>
    simp only at h
    by_cases hc : containsSub i.data w3Marker.data = true
    · rw [if_pos hc] at h
      exact absurd h (by simp)
    · rw [if_neg hc] at h
      simp only [Option.some.injEq] at h
      rw [termKey, h]
  | blank id => exact absurd h (by simp)
  | lit v => exact absurd h (by simp)

/-- **C4.** A resource whose identifier lies within the reserved
RDF/RDFS/OWL vocabulary namespace is never in the discovered class set,
whatever the graph: each reserved namespace contains the marker
`"www.w3.org"` that `extract_classes` filters on. -/
theorem reserved_vocab_excluded (g : Graph) (iri : String)
    (h : rdfNs.data <+: iri.data ∨ rdfsNs.data <+: iri.data ∨
      owlNs.data <+: iri.data) :
    iri ∉ discoveredClassIris g := by
  intro hmem
  rw [discoveredClassIris, List.mem_filterMap] at hmem
  obtain ⟨t, _, hft⟩ := hmem
  have hw3 : containsSub iri.data w3Marker.data = true := by
    have hinfix : w3Marker.data <:+: iri.data := by
      rcases h with hp | hp | hp
      · exact List.IsInfix.trans
          ((containsSub_iff rdfNs.data w3Marker.data).1 rfl) hp.isInfix
      · exact List.IsInfix.trans
          ((containsSub_iff rdfsNs.data w3Marker.data).1 rfl) hp.isInfix
      · exact List.IsInfix.trans
          ((containsSub_iff owlNs.data w3Marker.data).1 rfl) hp.isInfix
    exact (containsSub_iff iri.data w3Marker.data).2 hinfix
  cases t with
  | named i =>
    simp only at hft
    by_cases hc : containsSub i.data w3Marker.data = true
    · rw [if_pos hc] at hft
      exact absurd hft (by simp)
    · rw [if_neg hc] at hft
      simp only [Option.some.injEq] at hft
      rw [hft] at hc
      exact hc hw3
  | blank id => exact absurd hft (by simp)
  | lit v => exact absurd hft (by simp)

/-- Witness for C4: `rdfs:Resource`, explicitly typed as a class, is not
discovered. -/
theorem reserved_vocab_excluded_witness :
    "http://www.w3.org/2000/01/rdf-schema#Resource" ∉
      discoveredClassIris
        [⟨Term.named "http://www.w3.org/2000/01/rdf-schema#Resource",
          Term.named rdfTypeIri, Term.named rdfsClassIri⟩] :=
  reserved_vocab_excluded _ "http://www.w3.org/2000/01/rdf-schema#Resource"
    (Or.inr (Or.inl (by decide)))

/-- **C5.** A property with no declared range resolves to the string type
in all three target languages, and its descriptor is among the resolved
properties of its class. -/
theorem no_range_defaults_to_string (g : Graph) (classIri : String)
    (p : Term) (hp : p ∈ propTerms g classIri)
    (hnorange : ∀ t ∈ g, ¬(t.s = p ∧ t.p = Term.named rdfsRangeIri)) :
    mkProperty g p ∈ extract_properties g classIri ∧
    (mkProperty g p).rust_type = "String" ∧
    (mkProperty g p).python_type = "str" ∧
    (mkProperty g p).typescript_type = "string" := by
  have hfind : g.find?
      (fun t => t.s == p && t.p == Term.named rdfsRangeIri) = none := by
    rw [List.find?_eq_none]
    intro x hx hcontra
    simp only [Bool.and_eq_true, beq_iff_eq] at hcontra
    exact hnorange x hx hcontra
  have hrange : rangeOf g p = "xsd:string" := by
    rw [rangeOf, hfind]
  refine ⟨List.mem_map_of_mem _ hp, ?_, ?_, ?_⟩
  · show (map_xsd_type (rangeOf g p)).1 = "String"
    rw [hrange]
    decide
  · show (map_xsd_type (rangeOf g p)).2.1 = "str"
    rw [hrange]
    decide
  · show (map_xsd_type (rangeOf g p)).2.2 = "string"
    rw [hrange]
    decide

/-- Witness for C5 at a one-triple graph declaring only a domain. -/
theorem no_range_defaults_to_string_witness :
    mkProperty
      [⟨Term.named "http://example.org/ns#name",
        Term.named rdfsDomainIri, Term.named "http://example.org/ns#Person"⟩]
      (Term.named "http://example.org/ns#name") ∈
      extract_properties
        [⟨Term.named "http://example.org/ns#name",
          Term.named rdfsDomainIri,
          Term.named "http://example.org/ns#Person"⟩]
        "http://example.org/ns#Person" ∧
    (mkProperty
      [⟨Term.named "http://example.org/ns#name",
        Term.named rdfsDomainIri, Term.named "http://example.org/ns#Person"⟩]
      (Term.named "http://example.org/ns#name")).rust_type = "String" ∧
    (mkProperty
      [⟨Term.named "http://example.org/ns#name",
        Term.named rdfsDomainIri, Term.named "http://example.org/ns#Person"⟩]
      (Term.named "http://example.org/ns#name")).python_type = "str" ∧
    (mkProperty
      [⟨Term.named "http://example.org/ns#name",
        Term.named rdfsDomainIri, Term.named "http://example.org/ns#Person"⟩]
      (Term.named "http://example.org/ns#name")).typescript_type = "string" :=
  no_range_defaults_to_string _ "http://example.org/ns#Person"
    (Term.named "http://example.org/ns#name") (by decide) (by decide)

/-- **C6.** Any range string containing the substring `"string"` is mapped
to the string type in every target language, and the result does not
depend on the rest of the string at all — in particular it is unchanged
under any change of case of characters outside that substring. -/
theorem string_range_maps_to_string (a b a' b' : List Char) :
    map_xsd_type (String.mk (a ++ "string".data ++ b)) =
      ("String", "str", "string") ∧
    map_xsd_type (String.mk (a ++ "string".data ++ b)) =
      map_xsd_type (String.mk (a' ++ "string".data ++ b')) := by
  have key : ∀ x y : List Char,
      map_xsd_type (String.mk (x ++ "string".data ++ y)) =
        ("String", "str", "string") := by
    intro x y
    rw [map_xsd_type, if_pos]
    exact (containsSub_iff _ _).2 ⟨x, y, by simp⟩
  exact ⟨key a b, (key a b).trans (key a' b').symm⟩

/-- **C7.** The discovered class sequence is sorted by class identifier,
each class's property-solution sequence is sorted by property identifier,
and discovery run twice on the same graph yields identical results. -/
theorem discovery_sorted_and_deterministic (g : Graph) :
    List.Pairwise (fun a b : String => a ≤ b) (discoveredClassIris g) ∧
    (∀ classIri : String,
      List.Pairwise (fun a b : String => a ≤ b)
        ((propTerms g classIri).map termKey)) ∧
    extract_classes g = extract_classes g := by
  refine ⟨?_, ?_, rfl⟩
  · have hsorted : List.Pairwise termLe (classTerms g) :=
      List.sorted_insertionSort termLe (classCandidates g).dedup
    rw [discoveredClassIris, List.pairwise_filterMap]
    refine hsorted.imp ?_
    intro t t' hle i hi i' hi'
    simp only [Option.mem_def] at hi hi'
    rw [← termKey_of_discovery_filter t i hi,
      ← termKey_of_discovery_filter t' i' hi']
    exact hle
  · intro classIri
    have hsorted : List.Pairwise termLe (propTerms g classIri) :=
      List.sorted_insertionSort termLe (propCandidates g classIri).dedup
    rw [List.pairwise_map]
    exact hsorted.imp fun h => h

/-! ## Loader and renderer theorems -/

/-- Whether a walk entry loads without error: traversal errors and
non-`.ttl` files are never read, and a selected file must read and parse
successfully. -/
def DirEntry.loadsClean : DirEntry → Bool
  | .walkErr => true
  | .file _ ext read =>
    !(ext == "ttl") ||
      (match read with
       | some (ParseResult.pok _) => true
       | _ => false)

/-- Every effect of a dry-run preview is a console print. -/
theorem dryRunPreview_all_prints (path rendered : String) :
    (dryRunPreview path rendered).all (fun e => !e.isFsWrite) = true := by
  simp only [dryRunPreview]
  by_cases h : 20 < (rustLines rendered.data).length
  · simp [h, Effect.isFsWrite]
  · simp [h, Effect.isFsWrite]

/-- **C8.** With the dry-run flag enabled the orchestrator performs no
filesystem writes (no directory creation, no file writes), and an output
of more than 20 lines is previewed as exactly: the header, the first 20
lines (joined by newlines in one print), and the remaining-line count. -/
theorem dry_run_no_writes_and_preview (outputs : List (String × String))
    (outputDir : String) (path rendered : String)
    (h20 : 20 < (rustLines rendered.data).length) :
    (render_templates outputs outputDir true).all
      (fun e => !e.isFsWrite) = true ∧
    dryRunPreview path rendered =
      [Effect.print ("\n--- " ++ path ++ " ---"),
       Effect.print (String.mk (List.intercalate ['\n']
         ((rustLines rendered.data).take 20))),
       Effect.print ("... (" ++
         toString ((rustLines rendered.data).length - 20) ++ " more lines)")] := by
  constructor
  · have hmain : render_templates outputs outputDir true =
        outputs.flatMap
          (fun nm => dryRunPreview (outputDir ++ "/" ++ nm.1) nm.2) := rfl
    rw [hmain, List.all_eq_true]
    intro e he
    obtain ⟨nm, _, he'⟩ := List.mem_flatMap.1 he
    exact List.all_eq_true.1
      (dryRunPreview_all_prints (outputDir ++ "/" ++ nm.1) nm.2) e he'
  · simp only [dryRunPreview, if_pos h20]
    simp

/-- A 25-line rendered output used as the concrete dry-run scenario. -/
def sampleRendered : String :=
  String.mk (List.intercalate ['\n']
    ((List.range 25).map fun i => 'l' :: (toString i).data))

/-- Witness for C8: one template rendering 25 lines, previewed as the
first 20 lines plus `"... (5 more lines)"`, with no filesystem writes. -/
theorem dry_run_no_writes_and_preview_witness :
    (render_templates [("types.rs", sampleRendered)] "src/generated"
      true).all (fun e => !e.isFsWrite) = true ∧
    dryRunPreview "src/generated/types.rs" sampleRendered =
      [Effect.print ("\n--- " ++ "src/generated/types.rs" ++ " ---"),
       Effect.print (String.mk (List.intercalate ['\n']
         ((rustLines sampleRendered.data).take 20))),
       Effect.print ("... (" ++
         toString ((rustLines sampleRendered.data).length - 20) ++
         " more lines)")] :=
  dry_run_no_writes_and_preview [("types.rs", sampleRendered)]
    "src/generated" "src/generated/types.rs" sampleRendered (by decide)

/-- **C9 (counterexample).** A malformed `.ttl` file aborts the run, but
the resulting error is the parser's message alone: it does not mention the
offending file's path (only read failures get the path attached). -/
theorem parse_error_lacks_path_counterexample :
    load_ontology [DirEntry.file "schema/bad.ttl" "ttl"
        (some (ParseResult.perr "unexpected token at line 3"))] =
      Except.error "unexpected token at line 3" ∧
    containsSub "unexpected token at line 3".data "schema/bad.ttl".data
      = false :=
  ⟨rfl, by decide⟩

/-- Fail-fast behaviour of the load loop: the first file that fails to
parse determines the error, whatever comes after it. -/
theorem loadFiles_perr (pre : List (String × Option ParseResult))
    (path msg : String) (post : List (String × Option ParseResult))
    (hpre : ∀ f ∈ pre, ∃ ts, f.2 = some (ParseResult.pok ts)) :
    loadFiles (pre ++ (path, some (ParseResult.perr msg)) :: post) =
      Except.error msg := by
  induction pre with
  | nil => rfl
  | cons f fs ih =>
    obtain ⟨ts, hts⟩ := hpre f (by simp)
    obtain ⟨fp, fr⟩ := f
    simp only at hts
    subst hts
    show loadFiles ((fp, some (ParseResult.pok ts)) ::
      (fs ++ (path, some (ParseResult.perr msg)) :: post)) = Except.error msg
    have ihh := ih (fun x hx => hpre x (by simp [hx]))
    simp only [loadFiles, ihh]

/-- **C9 (amended).** A malformed ontology file aborts the run immediately
(entries after it are never consulted) with the parse error message —
which is the external parser's message alone; the loader attaches the file
path only to read failures, not to parse failures. -/
theorem malformed_file_fails_fast (pre post : List DirEntry)
    (path msg : String)
    (hpre : ∀ e ∈ pre, DirEntry.loadsClean e = true) :
    load_ontology (pre ++
        DirEntry.file path "ttl" (some (ParseResult.perr msg)) :: post) =
      Except.error msg := by
  have hsel : selectTtl (pre ++
      DirEntry.file path "ttl" (some (ParseResult.perr msg)) :: post) =
      selectTtl pre ++
        (path, some (ParseResult.perr msg)) :: selectTtl post := by
    rw [selectTtl, List.filterMap_append]
    rfl
  rw [load_ontology, hsel]
  apply loadFiles_perr
  intro f hf
  rw [selectTtl, List.mem_filterMap] at hf
  obtain ⟨e, he, hfe⟩ := hf
  have hclean := hpre e he
  cases e with
  | walkErr => exact absurd hfe (by simp)
  | file p ext read =>
    simp only at hfe
    by_cases hext : ext = "ttl"
    · subst hext
      rw [if_pos rfl] at hfe
      simp only [Option.some.injEq] at hfe
      subst hfe
      simp only [DirEntry.loadsClean, beq_self_eq_true, Bool.not_true,
        Bool.false_or] at hclean
      cases read with
      | none => simp at hclean
      | some pr =>
        cases pr with
        | perr m => simp at hclean
        | pok ts => exact ⟨ts, rfl⟩
    · rw [if_neg hext] at hfe
      exact absurd hfe (by simp)

/-- Witness for the amended C9: a clean file before, any file after. -/
theorem malformed_file_fails_fast_witness :
    load_ontology ([DirEntry.file "schema/good.ttl" "ttl"
        (some (ParseResult.pok []))] ++
      DirEntry.file "schema/bad.ttl" "ttl"
        (some (ParseResult.perr "unexpected token at line 3")) ::
      [DirEntry.file "schema/later.ttl" "ttl"
        (some (ParseResult.pok []))]) =
      Except.error "unexpected token at line 3" :=
  malformed_file_fails_fast _ _ "schema/bad.ttl"
    "unexpected token at line 3" (by decide)

/-- **C10.** Directory-traversal failures are silently discarded: a walk
producing only errors (e.g. a missing or unreadable source directory)
loads successfully as the empty graph, indistinguishable from an empty
directory. -/
theorem walk_errors_silently_discarded (entries : List DirEntry)
    (h : ∀ e ∈ entries, e = DirEntry.walkErr) :
    load_ontology entries = Except.ok [] ∧
    load_ontology entries = load_ontology [] := by
  have hsel : selectTtl entries = [] := by
    rw [selectTtl, List.filterMap_eq_nil_iff]
    intro e he
    rw [h e he]
  constructor
  · rw [load_ontology, hsel]
    rfl
  · rw [load_ontology, hsel]
    rfl

/-- Witness for C10: a single traversal error (missing directory). -/
theorem walk_errors_silently_discarded_witness :
    load_ontology [DirEntry.walkErr] = Except.ok [] ∧
    load_ontology [DirEntry.walkErr] = load_ontology [] :=
  walk_errors_silently_discarded [DirEntry.walkErr] (by decide)
